import Mathlib

/-!
Verification of the doko code-generation crate (src/lib.rs, src/error.rs).

Shallow embedding conventions:
* OS file names and path components are modelled as lists of byte values
  (`List Nat`, each entry < 256 on real inputs); Rust `OsString`/`String`
  values are byte lists, a `String` being a byte list that passes UTF-8
  validation.  Rust's `Ord` on both types is byte-wise lexicographic,
  modelled by `bytesLE`.
* A directory is a `List DirEntry` in filesystem-iteration order; the
  filesystem is a function from a directory path (a list of components,
  the result of `Path::components`) to its entry list.
* Generated `TokenStream`s are modelled by the `Item` tree: module
  inclusion declarations (with optional `#[path = ...]` override), nested
  `pub mod name { ... }` wrappers, and the generated registry function
  with its list of match arms.
* `Ident` values are carried as their textual bytes.
-/

namespace Doko

/-- Continuation byte test for UTF-8 (second and later bytes of a
multi-byte sequence): `0x80 ≤ b ≤ 0xBF`. -/
def isCont (b : Nat) : Bool := 0x80 ≤ b && b ≤ 0xBF

/-- UTF-8 validity of a byte sequence, following RFC 3629 exactly as
Rust's `std::str` validation does (used by `OsString::into_string` and
`OsStr::to_str`): surrogates and overlong encodings are rejected. -/
def validUtf8 : List Nat → Bool
  | [] => true
  | b :: rest =>
    if b < 0x80 then validUtf8 rest
    else if 0xC2 ≤ b ∧ b ≤ 0xDF then
      match rest with
      | c1 :: r => if isCont c1 then validUtf8 r else false
      | [] => false
    else if b = 0xE0 then
      match rest with
      | c1 :: c2 :: r => if (0xA0 ≤ c1 ∧ c1 ≤ 0xBF) ∧ isCont c2 then validUtf8 r else false
      | _ => false
    else if (0xE1 ≤ b ∧ b ≤ 0xEC) ∨ b = 0xEE ∨ b = 0xEF then
      match rest with
      | c1 :: c2 :: r => if isCont c1 ∧ isCont c2 then validUtf8 r else false
      | _ => false
    else if b = 0xED then
      match rest with
      | c1 :: c2 :: r => if (0x80 ≤ c1 ∧ c1 ≤ 0x9F) ∧ isCont c2 then validUtf8 r else false
      | _ => false
    else if b = 0xF0 then
      match rest with
      | c1 :: c2 :: c3 :: r =>
        if (0x90 ≤ c1 ∧ c1 ≤ 0xBF) ∧ isCont c2 ∧ isCont c3 then validUtf8 r else false
      | _ => false
    else if 0xF1 ≤ b ∧ b ≤ 0xF3 then
      match rest with
      | c1 :: c2 :: c3 :: r => if isCont c1 ∧ isCont c2 ∧ isCont c3 then validUtf8 r else false
      | _ => false
    else if b = 0xF4 then
      match rest with
      | c1 :: c2 :: c3 :: r =>
        if (0x80 ≤ c1 ∧ c1 ≤ 0x8F) ∧ isCont c2 ∧ isCont c3 then validUtf8 r else false
      | _ => false
    else false

/-- Byte-wise lexicographic order on byte strings; this is the order of
Rust's `Ord` for `OsString` (on Unix) and for `String`, the order used by
`failures.sort()` and `names.sort()`. -/
def bytesLE : List Nat → List Nat → Bool
  | [], _ => true
  | _ :: _, [] => false
  | a :: as, b :: bs => if a < b then true else if b < a then false else bytesLE as bs

/-- Propositional form of `bytesLE`, for use with `List.insertionSort`. -/
def bytesLEP (x y : List Nat) : Prop := bytesLE x y = true

instance : DecidableRel bytesLEP := fun x y => inferInstanceAs (Decidable (bytesLE x y = true))

instance : IsTotal (List Nat) bytesLEP where
  total := by
    intro x
    induction x with
    | nil => intro y; left; rfl
    | cons a as ih =>
      intro y
      cases y with
      | nil => right; rfl
      | cons b bs =>
        rcases Nat.lt_trichotomy a b with hab | hab | hab
        · left; simp [bytesLEP, bytesLE, hab]
        · subst hab
          rcases ih bs with h | h
          · left; simpa [bytesLEP, bytesLE] using h
          · right; simpa [bytesLEP, bytesLE] using h
        · right; simp [bytesLEP, bytesLE, hab]

instance : IsTrans (List Nat) bytesLEP where
  trans := by
    intro x
    induction x with
    | nil => intro y z _ _; rfl
    | cons a as ih =>
      intro y z hxy hyz
      cases y with
      | nil => simp [bytesLEP, bytesLE] at hxy
      | cons b bs =>
        cases z with
        | nil => simp [bytesLEP, bytesLE] at hyz
        | cons c cs =>
          simp only [bytesLEP, bytesLE] at hxy hyz ⊢
          rcases Nat.lt_trichotomy a b with hab | hab | hab
          · rcases Nat.lt_trichotomy b c with hbc | hbc | hbc
            · have : a < c := Nat.lt_trans hab hbc
              simp [this]
            · subst hbc; simp [hab]
            · simp [hbc, Nat.lt_asymm hbc] at hyz
          · subst hab
            rcases Nat.lt_trichotomy a c with hac | hac | hac
            · simp [hac]
            · subst hac
              simp only [Nat.lt_irrefl, if_false] at hxy hyz ⊢
              exact ih _ _ hxy hyz
            · simp [hac, Nat.lt_asymm hac] at hyz
          · simp [hab, Nat.lt_asymm hab] at hxy

instance : IsAntisymm (List Nat) bytesLEP where
  antisymm := by
    intro x
    induction x with
    | nil =>
      intro y _ hyx
      cases y with
      | nil => rfl
      | cons b bs => simp [bytesLEP, bytesLE] at hyx
    | cons a as ih =>
      intro y hxy hyx
      cases y with
      | nil => simp [bytesLEP, bytesLE] at hxy
      | cons b bs =>
        simp only [bytesLEP, bytesLE] at hxy hyx
        rcases Nat.lt_trichotomy a b with hab | hab | hab
        · simp [hab, Nat.lt_asymm hab] at hyx
        · subst hab
          simp only [Nat.lt_irrefl, if_false] at hxy hyx
          rw [ih bs hxy hyx]
        · simp [hab, Nat.lt_asymm hab] at hxy

/-- Sorting a list of byte strings ascending: the model of `Vec::sort`
on `Vec<OsString>` / `Vec<String>`. -/
def sortBytes (l : List (List Nat)) : List (List Nat) := List.insertionSort bytesLEP l

/-- Bytes of the reserved file name `mod.rs`. -/
def modRsName : List Nat := [109, 111, 100, 46, 114, 115]

/-- Bytes of the reserved file name `lib.rs`. -/
def libRsName : List Nat := [108, 105, 98, 46, 114, 115]

/-- Bytes of the reserved file name `main.rs`. -/
def mainRsName : List Nat := [109, 97, 105, 110, 46, 114, 115]

/-- The reserved-aggregator-name test from `source_file_names`:
`file_name == "mod.rs" || file_name == "lib.rs" || file_name == "main.rs"`. -/
def isReserved (n : List Nat) : Bool := n == modRsName || n == libRsName || n == mainRsName

/-- Model of `Path::new(&file_name).extension() == Some(OsStr::new("rs"))`
for a single path component: true exactly when the portion after the final
dot is `rs` and that dot is not the leading byte, which for this fixed
extension is equivalent to the name ending in the four-or-more byte suffix
pattern `….rs` (bytes `46, 114, 115`) with a nonempty part before the dot. -/
def extensionIsRs (n : List Nat) : Bool :=
  4 ≤ n.length && n.drop (n.length - 3) == [46, 114, 115]

/-- Model of `utf8.truncate(utf8.len() - ".rs".len())`: keep all bytes of
the file name except the trailing three (`.rs`). -/
def stemOf (n : List Nat) : List Nat := n.take (n.length - 3)

/-- One directory entry as observed by the `fs::read_dir` loop: whether
`file_type().is_file()` holds, and the raw bytes of `file_name()`. -/
structure DirEntry where
  isFile : Bool
  name : List Nat
deriving DecidableEq

/-- Model of doko's `Error` enum (src/error.rs).  `IOErr` abstracts from
the wrapped `io::Error` payload, which no modelled code path inspects. -/
inductive Err where
  | IOErr : Err
  | Utf8 : List Nat → Err
  | Empty : Err
deriving DecidableEq

/-- The names pushed by the `source_file_names` loop, in iteration order:
for each entry that is a regular file, is not a reserved aggregator name,
has the `rs` extension and decodes as UTF-8, the extension-stripped stem. -/
def scanNames : List DirEntry → List (List Nat)
  | [] => []
  | e :: rest =>
    if e.isFile = false then scanNames rest
    else if isReserved e.name = true then scanNames rest
    else if extensionIsRs e.name = true then
      (if validUtf8 e.name = true then stemOf e.name :: scanNames rest else scanNames rest)
    else scanNames rest

/-- The failures pushed by the `source_file_names` loop, in iteration
order: raw names of regular, non-reserved files with the `rs` extension
whose name fails UTF-8 decoding (`OsString::into_string` returning `Err`). -/
def scanFailures : List DirEntry → List (List Nat)
  | [] => []
  | e :: rest =>
    if e.isFile = false then scanFailures rest
    else if isReserved e.name = true then scanFailures rest
    else if extensionIsRs e.name = true then
      (if validUtf8 e.name = true then scanFailures rest else e.name :: scanFailures rest)
    else scanFailures rest

/-- Model of `source_file_names` (src/lib.rs:257-297): scan all entries
collecting stems and decode failures, sort the failures and report the
first (smallest) one if any, fail with `Empty` if no names remain, else
return the sorted stems. -/
def source_file_names (entries : List DirEntry) : Except Err (List (List Nat)) :=
  let names := scanNames entries
  let failures := scanFailures entries
  match sortBytes failures with
  | failure :: _ => .error (.Utf8 failure)
  | [] =>
    if names = [] then .error .Empty
    else .ok (sortBytes names)

/-- Hyphen-to-underscore normalization: the byte-level model of
`String::replace('-', "_")`.  On valid UTF-8, byte `45` occurs exactly at
the characters `-` (ASCII bytes never occur inside multi-byte sequences),
so the byte map coincides with the character-level replacement. -/
def replaceHyphens (s : List Nat) : List Nat := s.map fun b => if b = 45 then 95 else b

/-- Model of syn's `ParenthesizedGenericArguments`: the parameter types
and the return type of the shared method, carried opaquely as text. -/
structure Signature where
  inputs : List (List Nat)
  output : List Nat
deriving DecidableEq

/-- One arm of the generated `match module_name { ... }`: either a
string-literal key dispatching to a qualified method path (the segments of
`prefix::ident::method`), or the trailing
`unknown => panic!("unknown module: {}", unknown)` catch-all. -/
inductive MatchArm where
  | call : List Nat → List (List Nat) → MatchArm
  | catchAllPanic : MatchArm
deriving DecidableEq

/-- A top-level fragment of the emitted token stream. -/
inductive Item where
  | modInclude : Option (List Nat) → List Nat → Item
  | modWrap : List Nat → List Item → Item
  | registry : List Nat → Signature → List MatchArm → Item

/-- All data needed to properly include and call methods in a particular
submodule (struct `SubmoduleData`); `includeDecl` is its `include` token
stream, one inclusion declaration. -/
structure SubmoduleData where
  ident : List Nat
  name : List Nat
  includeDecl : Item

/-- Model of `data_for_submodule` (src/lib.rs:169-192): if the stem
contains a hyphen, emit a `#[path = "<stem>.rs"]`-annotated declaration
under the underscored identifier and store the underscored text in `name`;
otherwise identifier, name and physical stem coincide. -/
def data_for_submodule (name : List Nat) : SubmoduleData :=
  if 45 ∈ name then
    let path := name ++ [46, 114, 115]
    let name2 := replaceHyphens name
    let ident := replaceHyphens name2
    { ident := ident
      name := name2
      includeDecl := .modInclude (some path) ident }
  else
    { ident := name
      name := name
      includeDecl := .modInclude none name }

/-- Model of `build_module_includes` (src/lib.rs:196-208): concatenate the
per-submodule inclusion declarations, then fold over the reversed
enclosing-module chain wrapping the stream in `pub mod m { ... }`. -/
def build_module_includes (submodules : List SubmoduleData) (enclosing_modules : List (List Nat)) :
    List Item :=
  let inner_modules := submodules.map (·.includeDecl)
  enclosing_modules.reverse.foldl (fun stream m => [Item.modWrap m stream]) inner_modules

/-- Model of `get_call_for_submodule` (src/lib.rs:244-254): one match arm
`#key => #qpathBase::#ident::#method,` where the key literal is the
submodule's `name` field. -/
def get_call_for_submodule (submod : SubmoduleData) (qpathBase : List (List Nat))
    (method : List Nat) : MatchArm :=
  .call submod.name (qpathBase ++ [submod.ident, method])

/-- Bytes of the segment `crate`, the start of the qualification path. -/
def crateSeg : List Nat := [99, 114, 97, 116, 101]

/-- Bytes of the text `doko_`, prepended to the method name by
`format_ident!`. -/
def dokoMark : List Nat := [100, 111, 107, 111, 95]

/-- Model of `build_registry` (src/lib.rs:214-240): the generated function
`pub fn doko_<method>(module_name: &str) -> fn(args) ret` whose body is a
match with one arm per submodule followed by the panicking catch-all; the
qualification path folds `crate` through the enclosing modules. -/
def build_registry (submodules : List SubmoduleData) (enclosing_modules : List (List Nat))
    (method : List Nat) (signature : Signature) : Item :=
  let gen_method_name := dokoMark ++ method
  let qpathBase := enclosing_modules.foldl (fun acc next => acc ++ [next]) [crateSeg]
  let calls := submodules.map fun submod => get_call_for_submodule submod qpathBase method
  .registry gen_method_name signature (calls ++ [.catchAllPanic])

/-- Model of the `.map(...).collect::<Result<Vec<Ident>>>()` step of
`get_enclosing_modules`: each component must decode as UTF-8 to become an
identifier; the first failing component (in order) aborts the collection. -/
def identsOf : List (List Nat) → Except Err (List (List Nat))
  | [] => .ok []
  | s :: rest =>
    if validUtf8 s = true then
      match identsOf rest with
      | .ok l => .ok (s :: l)
      | .error e => .error e
    else .error (.Utf8 s)

/-- Model of `get_enclosing_modules` (src/lib.rs:131-144): the directory
argument's path components with the first (root folder) skipped, each
validated as text. -/
def get_enclosing_modules (directory : List (List Nat)) : Except Err (List (List Nat)) :=
  identsOf (directory.drop 1)

/-- Model of resolving the scanned directory against the optional
`CARGO_MANIFEST_DIR` environment value: `PathBuf::from(manifest).join(dir)`
for the relative directory arguments doko receives is component
concatenation; absent the variable the argument is used as-is. -/
def resolveDir (env : Option (List (List Nat))) (directory : List (List Nat)) :
    List (List Nat) :=
  match env with
  | some manifest_dir => manifest_dir ++ directory
  | none => directory

/-- Model of `get_submodule_data` (src/lib.rs:154-164): list the resolved
directory with `source_file_names` and build `SubmoduleData` for each
returned stem.  `fs` is the (read-only) filesystem, mapping a directory
path to its entries in iteration order. -/
def get_submodule_data (env : Option (List (List Nat)))
    (fs : List (List Nat) → List DirEntry) (directory : List (List Nat)) :
    Except Err (List SubmoduleData) :=
  match source_file_names (fs (resolveDir env directory)) with
  | .ok names => .ok (names.map data_for_submodule)
  | .error e => .error e

/-- Arguments to the macro after parsing (struct `DokoArgs`); the `path`
literal is carried as its list of path components. -/
structure DokoArgs where
  path : List (List Nat)
  method : List Nat
  signature : Signature

/-- Model of `tokens_for_input` (src/lib.rs:100-122): compute the
enclosing modules and submodule data (propagating either failure), then
emit the inclusion items followed by the registry, or the registry alone
when `include_mods` is false. -/
def tokens_for_input (env : Option (List (List Nat)))
    (fs : List (List Nat) → List DirEntry) (input : DokoArgs) (include_mods : Bool) :
    Except Err (List Item) :=
  match get_enclosing_modules input.path with
  | .error e => .error e
  | .ok enclosing_modules =>
    match get_submodule_data env fs input.path with
    | .error e => .error e
    | .ok submod_data =>
      let outer_mod := build_module_includes submod_data enclosing_modules
      let registry := build_registry submod_data enclosing_modules input.method input.signature
      if include_mods then .ok (outer_mod ++ [registry])
      else .ok [registry]

/-- The `doko!` entry point (src/lib.rs:79-85): full form, modules included. -/
def doko (env : Option (List (List Nat))) (fs : List (List Nat) → List DirEntry)
    (input : DokoArgs) : Except Err (List Item) :=
  tokens_for_input env fs input true

/-- The `doko_skip_mods!` entry point (src/lib.rs:90-96): dispatcher-only
form. -/
def doko_skip_mods (env : Option (List (List Nat))) (fs : List (List Nat) → List DirEntry)
    (input : DokoArgs) : Except Err (List Item) :=
  tokens_for_input env fs input false

/-- The arms of a generated registry item (empty for other items). -/
def registryArms : Item → List MatchArm
  | .registry _ _ arms => arms
  | _ => []

/-- The string-literal keys of the call arms of a match, in order. -/
def armKeys : List MatchArm → List (List Nat)
  | [] => []
  | .call key _ :: rest => key :: armKeys rest
  | .catchAllPanic :: rest => armKeys rest

/-- Outcome of evaluating the generated `match module_name` body on a
module-name string: dispatch to a qualified method path, or the
`panic!("unknown module: {}", unknown)` abort carrying the offending name. -/
inductive DispatchOutcome where
  | call : List (List Nat) → DispatchOutcome
  | panicUnknown : List Nat → DispatchOutcome
deriving DecidableEq

/-- Rust `match` semantics over the modelled arms: arms are tried in
order; a string-literal arm fires on exact equality; the wildcard
catch-all always fires.  `none` would mean falling off the end (never
happens for generated arm lists, which end in the catch-all). -/
def evalMatch : List MatchArm → List Nat → Option DispatchOutcome
  | [], _ => none
  | .call key qpath :: rest, s =>
    if key = s then some (.call qpath) else evalMatch rest s
  | .catchAllPanic :: _, s => some (.panicUnknown s)

/-- Eligibility per the claims' wording: a regular file, not a reserved
aggregator name, with the source extension (decodability not included). -/
def eligibleFile (e : DirEntry) : Bool :=
  e.isFile && !isReserved e.name && extensionIsRs e.name

/-- The entries whose stem is pushed onto `names` by the scan loop. -/
def keepsName (e : DirEntry) : Bool :=
  e.isFile && !isReserved e.name && extensionIsRs e.name && validUtf8 e.name

/-- The entries whose raw name is pushed onto `failures` by the scan loop. -/
def failsName (e : DirEntry) : Bool :=
  e.isFile && !isReserved e.name && extensionIsRs e.name && !validUtf8 e.name

theorem scanNames_eq (es : List DirEntry) :
    scanNames es = (es.filter keepsName).map fun e => stemOf e.name := by
  induction es with
  | nil => rfl
  | cons e rest ih =>
    cases hf : e.isFile <;> cases hr : isReserved e.name <;>
      cases hx : extensionIsRs e.name <;> cases hv : validUtf8 e.name <;>
      simp [scanNames, keepsName, List.filter_cons, hf, hr, hx, hv, ih]

theorem scanFailures_eq (es : List DirEntry) :
    scanFailures es = (es.filter failsName).map fun e => e.name := by
  induction es with
  | nil => rfl
  | cons e rest ih =>
    cases hf : e.isFile <;> cases hr : isReserved e.name <;>
      cases hx : extensionIsRs e.name <;> cases hv : validUtf8 e.name <;>
      simp [scanFailures, failsName, List.filter_cons, hf, hr, hx, hv, ih]

theorem sortBytes_perm (l : List (List Nat)) : List.Perm (sortBytes l) l :=
  List.perm_insertionSort bytesLEP l

theorem sortBytes_sorted (l : List (List Nat)) : List.Sorted bytesLEP (sortBytes l) :=
  List.sorted_insertionSort bytesLEP l

theorem sortBytes_eq_of_perm {l l2 : List (List Nat)} (h : List.Perm l l2) :
    sortBytes l = sortBytes l2 :=
  List.eq_of_perm_of_sorted (((sortBytes_perm l).trans h).trans (sortBytes_perm l2).symm)
    (sortBytes_sorted l) (sortBytes_sorted l2)

theorem bytesLE_refl (x : List Nat) : bytesLE x x = true := by
  induction x with
  | nil => rfl
  | cons a as ih => simp [bytesLE, ih]

theorem source_file_names_perm {es es2 : List DirEntry} (h : List.Perm es es2) :
    source_file_names es = source_file_names es2 := by
  have hn : List.Perm (scanNames es) (scanNames es2) := by
    rw [scanNames_eq, scanNames_eq]
    exact (h.filter keepsName).map _
  have hfail : sortBytes (scanFailures es) = sortBytes (scanFailures es2) := by
    apply sortBytes_eq_of_perm
    rw [scanFailures_eq, scanFailures_eq]
    exact (h.filter failsName).map _
  have hnames : sortBytes (scanNames es) = sortBytes (scanNames es2) :=
    sortBytes_eq_of_perm hn
  have hempty : (scanNames es = []) ↔ (scanNames es2 = []) := by
    constructor <;> intro he
    · exact (he ▸ hn).symm.eq_nil
    · exact (he ▸ hn.symm).symm.eq_nil
  simp only [source_file_names]
  rw [hfail, hnames]
  simp only [hempty]

theorem foldl_snoc (l init : List (List Nat)) :
    l.foldl (fun acc next => acc ++ [next]) init = init ++ l := by
  induction l generalizing init with
  | nil => simp
  | cons a as ih => simp [List.foldl, ih]

theorem armKeys_calls (subs : List SubmoduleData) (base : List (List Nat)) (method : List Nat) :
    armKeys ((subs.map fun s => get_call_for_submodule s base method) ++ [.catchAllPanic])
      = subs.map (·.name) := by
  induction subs with
  | nil => rfl
  | cons s rest ih =>
    simp only [get_call_for_submodule] at ih
    simp [armKeys, get_call_for_submodule, ih]

theorem extensionIsRs_append {c : List Nat} (hc : c ≠ []) :
    extensionIsRs (c ++ [46, 114, 115]) = true := by
  have hcl : 0 < c.length := List.length_pos.mpr hc
  have hl : (c ++ [46, 114, 115]).length = c.length + 3 := by simp
  have hd : c.length + 3 - 3 = c.length := by omega
  unfold extensionIsRs
  rw [hl, hd, List.drop_left]
  simp
  omega

theorem stemOf_append (c : List Nat) : stemOf (c ++ [46, 114, 115]) = c := by
  unfold stemOf
  have hl : (c ++ [46, 114, 115]).length - 3 = c.length := by simp
  rw [hl, List.take_left]

theorem stem_restore {n : List Nat} (h : extensionIsRs n = true) :
    stemOf n ++ [46, 114, 115] = n := by
  unfold extensionIsRs at h
  rw [Bool.and_eq_true, decide_eq_true_eq, beq_iff_eq] at h
  obtain ⟨h1, h2⟩ := h
  calc stemOf n ++ [46, 114, 115]
      = n.take (n.length - 3) ++ n.drop (n.length - 3) := by rw [← h2]; rfl
    _ = n := List.take_append_drop _ _

theorem replaceHyphens_of_not_mem {s : List Nat} (h : 45 ∉ s) : replaceHyphens s = s := by
  unfold replaceHyphens
  conv_rhs => rw [← List.map_id s]
  apply List.map_congr_left
  intro a ha
  have hne : ¬(a = 45) := fun he => h (he ▸ ha)
  simp [hne]

theorem replaceHyphens_idem (s : List Nat) :
    replaceHyphens (replaceHyphens s) = replaceHyphens s := by
  unfold replaceHyphens
  rw [List.map_map]
  apply List.map_congr_left
  intro a _
  by_cases h : a = 45 <;> simp [h]

/-- C2 counterexample: the directory holds the regular files `a.rs` and a
file whose raw one-byte name `0x80` cannot be decoded as text; the claim
demands that enumeration fail, but it succeeds with `["a"]` because decode
failures are only collected for names carrying the `rs` extension. -/
theorem c2_counterexample :
    validUtf8 [128] = false ∧
    (DirEntry.mk true [128]).isFile = true ∧
    source_file_names [⟨true, [97, 46, 114, 115]⟩, ⟨true, [128]⟩] = .ok [[97]] :=
  ⟨rfl, rfl, rfl⟩

/-- C2 (amended): for every directory in which at least one regular,
non-reserved file WITH THE SOURCE EXTENSION has a name that cannot be
decoded as text, enumeration scans all entries, collects every such
failure, and fails by reporting the lexicographically-smallest failing raw
name; the reported error is identical for any iteration order of the
directory's entries. -/
theorem c2_utf8_failure_reporting (entries entries2 : List DirEntry)
    (hperm : List.Perm entries entries2)
    (hne : (entries.filter failsName).map (fun e => e.name) ≠ []) :
    ∃ m, source_file_names entries = .error (.Utf8 m) ∧
      source_file_names entries2 = .error (.Utf8 m) ∧
      m ∈ (entries.filter failsName).map (fun e => e.name) ∧
      ∀ f ∈ (entries.filter failsName).map (fun e => e.name), bytesLE m f = true := by
  have hfne : scanFailures entries ≠ [] := by rw [scanFailures_eq]; exact hne
  have hsp := sortBytes_perm (scanFailures entries)
  have hsne : sortBytes (scanFailures entries) ≠ [] := by
    intro h0
    rw [h0] at hsp
    exact hfne hsp.symm.eq_nil
  obtain ⟨m, rest, hm⟩ : ∃ m rest, sortBytes (scanFailures entries) = m :: rest := by
    cases hc : sortBytes (scanFailures entries) with
    | nil => exact absurd hc hsne
    | cons x l => exact ⟨x, l, rfl⟩
  have hout : source_file_names entries = .error (.Utf8 m) := by
    simp only [source_file_names]
    rw [hm]
  refine ⟨m, hout, ?_, ?_, ?_⟩
  · rw [← source_file_names_perm hperm]
    exact hout
  · rw [← scanFailures_eq]
    have hmm : m ∈ sortBytes (scanFailures entries) := by
      rw [hm]; exact List.mem_cons_self _ _
    exact hsp.subset hmm
  · intro f hf
    rw [← scanFailures_eq] at hf
    have hf2 : f ∈ sortBytes (scanFailures entries) := hsp.symm.subset hf
    rw [hm] at hf2
    rcases List.mem_cons.mp hf2 with h | h
    · rw [h]; exact bytesLE_refl m
    · have hs := sortBytes_sorted (scanFailures entries)
      rw [hm] at hs
      exact (List.sorted_cons.mp hs).1 f h

/-- C2 witness: in both iteration orders of a directory with the
non-decodable source-file names `0xFF.rs` and `0xC0.rs`, enumeration
reports the smaller failing name. -/
theorem c2_utf8_failure_reporting_witness :
    ∃ m, source_file_names [⟨true, [255, 46, 114, 115]⟩, ⟨true, [192, 46, 114, 115]⟩]
        = .error (.Utf8 m) ∧
      source_file_names [⟨true, [192, 46, 114, 115]⟩, ⟨true, [255, 46, 114, 115]⟩]
        = .error (.Utf8 m) ∧
      m ∈ (([⟨true, [255, 46, 114, 115]⟩, ⟨true, [192, 46, 114, 115]⟩] :
              List DirEntry).filter failsName).map (fun e => e.name) ∧
      ∀ f ∈ (([⟨true, [255, 46, 114, 115]⟩, ⟨true, [192, 46, 114, 115]⟩] :
              List DirEntry).filter failsName).map (fun e => e.name), bytesLE m f = true :=
  c2_utf8_failure_reporting _ _ (by decide) (by decide)

/-- C3 counterexample: the directory contains the eligible file `a.rs`,
yet enumeration does not succeed: a further source file with the
non-decodable name `0xFF.rs` makes it fail with the UTF-8 error. -/
theorem c3_counterexample :
    eligibleFile ⟨true, [97, 46, 114, 115]⟩ = true ∧
    source_file_names [⟨true, [97, 46, 114, 115]⟩, ⟨true, [255, 46, 114, 115]⟩]
      = .error (.Utf8 [255, 46, 114, 115]) :=
  ⟨rfl, rfl⟩

/-- C3 (amended): for every directory (entry names being unique, as on a
real filesystem) containing at least one eligible file AND no
name-decoding failures, enumeration succeeds and returns exactly the
extension-stripped stems of the regular non-reserved files with the source
extension, sorted ascending and without duplicates. -/
theorem c3_enumeration_sorted (entries : List DirEntry)
    (hnodup : (entries.map fun e => e.name).Nodup)
    (hex : ∃ e ∈ entries, eligibleFile e = true)
    (hnf : entries.filter failsName = []) :
    ∃ ns, source_file_names entries = .ok ns ∧
      List.Perm ns ((entries.filter eligibleFile).map fun e => stemOf e.name) ∧
      List.Sorted bytesLEP ns ∧ ns.Nodup := by
  have hnofail : ∀ e ∈ entries, ¬ failsName e = true := List.filter_eq_nil_iff.mp hnf
  have hfe : entries.filter keepsName = entries.filter eligibleFile := by
    apply List.filter_congr
    intro e he
    have hf := hnofail e he
    have hkeq : keepsName e = (eligibleFile e && validUtf8 e.name) := rfl
    have hfeq : failsName e = (eligibleFile e && !validUtf8 e.name) := rfl
    rw [hfeq] at hf
    rw [hkeq]
    cases hv : validUtf8 e.name
    · rw [hv] at hf
      simp at hf
      simp [hf]
    · simp
  have hsf : scanFailures entries = [] := by rw [scanFailures_eq, hnf]; rfl
  have hsn : scanNames entries = (entries.filter eligibleFile).map fun e => stemOf e.name := by
    rw [scanNames_eq, hfe]
  have hnn : scanNames entries ≠ [] := by
    obtain ⟨e, he, helig⟩ := hex
    rw [hsn]
    intro h0
    have : e ∈ entries.filter eligibleFile := List.mem_filter.mpr ⟨he, helig⟩
    rw [List.map_eq_nil_iff] at h0
    rw [h0] at this
    exact absurd this (List.not_mem_nil e)
  refine ⟨sortBytes (scanNames entries), ?_, ?_, sortBytes_sorted _, ?_⟩
  · simp only [source_file_names, hsf, if_neg hnn]
    rfl
  · rw [← hsn]
    exact sortBytes_perm _
  · apply (sortBytes_perm (scanNames entries)).nodup_iff.mpr
    rw [hsn]
    have hsub : List.Sublist (entries.filter eligibleFile) entries := List.filter_sublist _
    have hmapn : ((entries.filter eligibleFile).map fun e => e.name).Nodup :=
      (hsub.map fun e => e.name).nodup hnodup
    have hrw : ((entries.filter eligibleFile).map fun e => stemOf e.name)
        = ((entries.filter eligibleFile).map fun e => e.name).map stemOf := by
      rw [List.map_map]; rfl
    rw [hrw]
    apply hmapn.map_on
    intro x hx y hy hxy
    obtain ⟨ex, hex2, hxn⟩ := List.mem_map.mp hx
    obtain ⟨ey, hey2, hyn⟩ := List.mem_map.mp hy
    have hxe : extensionIsRs x = true := by
      rw [← hxn]
      have h := (List.mem_filter.mp hex2).2
      unfold eligibleFile at h
      rw [Bool.and_eq_true] at h
      exact h.2
    have hye : extensionIsRs y = true := by
      rw [← hyn]
      have h := (List.mem_filter.mp hey2).2
      unfold eligibleFile at h
      rw [Bool.and_eq_true] at h
      exact h.2
    calc x = stemOf x ++ [46, 114, 115] := (stem_restore hxe).symm
      _ = stemOf y ++ [46, 114, 115] := by rw [hxy]
      _ = y := stem_restore hye

/-- C3 witness: a directory holding `a.rs`, `b.rs` and the reserved
`mod.rs` enumerates successfully, and the result is exactly `["a", "b"]`. -/
theorem c3_enumeration_sorted_witness :
    (∃ ns, source_file_names
          [⟨true, [97, 46, 114, 115]⟩, ⟨true, [98, 46, 114, 115]⟩, ⟨true, modRsName⟩]
        = .ok ns ∧
      List.Perm ns ((([⟨true, [97, 46, 114, 115]⟩, ⟨true, [98, 46, 114, 115]⟩,
              ⟨true, modRsName⟩] : List DirEntry).filter eligibleFile).map
            fun e => stemOf e.name) ∧
      List.Sorted bytesLEP ns ∧ ns.Nodup) ∧
    source_file_names
        [⟨true, [97, 46, 114, 115]⟩, ⟨true, [98, 46, 114, 115]⟩, ⟨true, modRsName⟩]
      = .ok [[97], [98]] :=
  ⟨c3_enumeration_sorted _ (by decide) (by decide) (by decide), rfl⟩

/-- C9: for every directory in which, after filtering, zero eligible files
remain and no name-decoding failures occurred, enumeration fails with
exactly the `Empty` ("no source files found") error, not any other kind. -/
theorem c9_empty_error (entries : List DirEntry)
    (heligible : entries.filter eligibleFile = [])
    (hfail : entries.filter failsName = []) :
    source_file_names entries = .error .Empty := by
  have hnoelig : ∀ e ∈ entries, ¬ eligibleFile e = true := List.filter_eq_nil_iff.mp heligible
  have hkeep : entries.filter keepsName = [] := by
    apply List.filter_eq_nil_iff.mpr
    intro e he hk
    apply hnoelig e he
    have hkeq : keepsName e = (eligibleFile e && validUtf8 e.name) := rfl
    rw [hkeq, Bool.and_eq_true] at hk
    exact hk.1
  have h1 : scanNames entries = [] := by rw [scanNames_eq, hkeep]; rfl
  have h2 : scanFailures entries = [] := by rw [scanFailures_eq, hfail]; rfl
  simp only [source_file_names, h1, h2]
  rfl

/-- C9 witness: a directory with only `mod.rs`, a non-file entry and a
non-source file fails with the `Empty` error. -/
theorem c9_empty_error_witness :
    source_file_names [⟨true, modRsName⟩, ⟨false, [97, 46, 114, 115]⟩,
        ⟨true, [114, 46, 109, 100]⟩] = .error .Empty :=
  c9_empty_error _ (by decide) (by decide)

/-- C1 counterexample: for the enumerated stem `multi-word` the generated
dispatcher's branch key is the normalized string `multi_word`, not the raw
on-disk stem `multi-word` as claimed (byte `45` is the hyphen, `95` the
underscore, `run`/`u32` the method and signature). -/
theorem c1_counterexample :
    armKeys (registryArms (build_registry
        [data_for_submodule [109, 117, 108, 116, 105, 45, 119, 111, 114, 100]] []
        [114, 117, 110] ⟨[], [117, 51, 50]⟩))
      = [[109, 117, 108, 116, 105, 95, 119, 111, 114, 100]] ∧
    [109, 117, 108, 116, 105, 95, 119, 111, 114, 100] ≠
      [109, 117, 108, 116, 105, 45, 119, 111, 114, 100] :=
  ⟨rfl, by decide⟩

/-- C1 (amended): for every enumerated submodule the key of the generated
dispatcher's match branch is the hyphen-NORMALIZED stem (every hyphen
replaced by an underscore, coinciding with the raw stem when no hyphen
occurs); the ordered list of dispatch keys equals the list of normalized
file stems. -/
theorem c1_keys_are_normalized_stems (stems enclosing : List (List Nat))
    (method : List Nat) (sig : Signature) :
    armKeys (registryArms (build_registry (stems.map data_for_submodule)
        enclosing method sig))
      = stems.map replaceHyphens := by
  simp only [build_registry, registryArms]
  rw [armKeys_calls, List.map_map]
  apply List.map_congr_left
  intro s _
  by_cases h : 45 ∈ s
  · simp [data_for_submodule, h]
  · simp [data_for_submodule, h, replaceHyphens_of_not_mem h]

/-- C8: for every raw file stem containing a hyphen, the submodule's
identifier is the stem with every hyphen replaced by an underscore and the
inclusion declaration carries a `#[path = ...]` override naming the
original on-disk file (raw stem plus `.rs`); for every stem without a
hyphen, identifier and physical name coincide and no override is emitted. -/
theorem c8_normalization (stem : List Nat) :
    (45 ∈ stem →
      (data_for_submodule stem).ident = replaceHyphens stem ∧
      (data_for_submodule stem).includeDecl
        = .modInclude (some (stem ++ [46, 114, 115])) (replaceHyphens stem)) ∧
    (45 ∉ stem →
      (data_for_submodule stem).ident = stem ∧
      (data_for_submodule stem).includeDecl = .modInclude none stem) := by
  constructor
  · intro h
    refine ⟨?_, ?_⟩ <;> simp [data_for_submodule, h, replaceHyphens_idem]
  · intro h
    refine ⟨?_, ?_⟩ <;> simp [data_for_submodule, h]

/-- C8 witness: the stem `multi-word` yields identifier `multi_word` with
a path override naming `multi-word.rs`, and the hyphen-free stem `plain`
yields itself with no override. -/
theorem c8_normalization_witness :
    ((data_for_submodule [109, 117, 108, 116, 105, 45, 119, 111, 114, 100]).ident
        = replaceHyphens [109, 117, 108, 116, 105, 45, 119, 111, 114, 100] ∧
      (data_for_submodule [109, 117, 108, 116, 105, 45, 119, 111, 114, 100]).includeDecl
        = .modInclude
            (some ([109, 117, 108, 116, 105, 45, 119, 111, 114, 100] ++ [46, 114, 115]))
            (replaceHyphens [109, 117, 108, 116, 105, 45, 119, 111, 114, 100])) ∧
    ((data_for_submodule [112, 108, 97, 105, 110]).ident = [112, 108, 97, 105, 110] ∧
      (data_for_submodule [112, 108, 97, 105, 110]).includeDecl
        = .modInclude none [112, 108, 97, 105, 110]) :=
  ⟨(c8_normalization _).1 (by decide), (c8_normalization _).2 (by decide)⟩

/-- C6: the generated dispatcher's match consists of one branch per
enumerated submodule followed by a catch-all branch that unconditionally
panics carrying the offending name; hence for every module-name string
absent from the key set, evaluating the match aborts with that name and
never yields a callable. -/
theorem c6_unknown_key_panics (submodules : List SubmoduleData)
    (enclosing : List (List Nat)) (method : List Nat) (sig : Signature)
    (s : List Nat) :
    registryArms (build_registry submodules enclosing method sig)
      = (submodules.map fun d =>
          get_call_for_submodule d
            (enclosing.foldl (fun acc next => acc ++ [next]) [crateSeg]) method)
        ++ [.catchAllPanic] ∧
    (s ∉ submodules.map (fun d => d.name) →
      evalMatch (registryArms (build_registry submodules enclosing method sig)) s
        = some (.panicUnknown s)) := by
  refine ⟨rfl, ?_⟩
  intro hs
  show evalMatch ((submodules.map fun d =>
      get_call_for_submodule d
        (enclosing.foldl (fun acc next => acc ++ [next]) [crateSeg]) method)
    ++ [.catchAllPanic]) s = some (.panicUnknown s)
  induction submodules with
  | nil => rfl
  | cons d rest ih =>
    rw [List.map_cons, List.mem_cons, not_or] at hs
    rw [List.map_cons, List.cons_append]
    show (if d.name = s then some (DispatchOutcome.call _) else evalMatch _ s)
        = some (.panicUnknown s)
    rw [if_neg (fun he => hs.1 he.symm)]
    exact ih hs.2

/-- C6 witness: the dispatcher generated for the single submodule `a`
panics with the offending name when invoked with the unknown key `nope`. -/
theorem c6_unknown_key_panics_witness :
    evalMatch (registryArms (build_registry [data_for_submodule [97]] [[117]]
        [114, 117, 110] ⟨[], [117, 51, 50]⟩)) [110, 111, 112, 101]
      = some (.panicUnknown [110, 111, 112, 101]) :=
  (c6_unknown_key_panics [data_for_submodule [97]] [[117]] [114, 117, 110]
    ⟨[], [117, 51, 50]⟩ [110, 111, 112, 101]).2 (by decide)

theorem data_for_submodule_includeDecl (s : List Nat) :
    ∃ po nm, (data_for_submodule s).includeDecl = Item.modInclude po nm := by
  by_cases h : 45 ∈ s
  · refine ⟨some (s ++ [46, 114, 115]), replaceHyphens (replaceHyphens s), ?_⟩
    simp [data_for_submodule, h]
  · refine ⟨none, s, ?_⟩
    simp [data_for_submodule, h]

theorem foldl_wrap_shapes (l : List (List Nat)) (init : List Item)
    (hinit : ∀ it ∈ init,
      (∃ nm body, it = Item.modWrap nm body) ∨ (∃ po nm, it = Item.modInclude po nm)) :
    ∀ it ∈ l.foldl (fun stream m => [Item.modWrap m stream]) init,
      (∃ nm body, it = Item.modWrap nm body) ∨ (∃ po nm, it = Item.modInclude po nm) := by
  induction l generalizing init with
  | nil => exact hinit
  | cons m rest ih =>
    rw [List.foldl_cons]
    apply ih
    intro it hit
    rw [List.mem_singleton] at hit
    exact Or.inl ⟨m, init, hit⟩

theorem build_module_includes_shapes (submodules : List SubmoduleData)
    (enclosing : List (List Nat))
    (hsub : ∀ d ∈ submodules, ∃ po nm, d.includeDecl = Item.modInclude po nm) :
    ∀ it ∈ build_module_includes submodules enclosing,
      (∃ nm body, it = Item.modWrap nm body) ∨ (∃ po nm, it = Item.modInclude po nm) := by
  unfold build_module_includes
  apply foldl_wrap_shapes
  intro it hit
  obtain ⟨d, hd, hdit⟩ := List.mem_map.mp hit
  obtain ⟨po, nm, hpo⟩ := hsub d hd
  exact Or.inr ⟨po, nm, by rw [← hdit, hpo]⟩

/-- C7: the dispatcher-only (`doko_skip_mods!`) variant emits exactly the
dispatcher item and no scope or inclusion declarations, and the full
(`doko!`) variant's output is the inclusion declarations followed by
exactly the same dispatcher item; on failure both variants fail alike. -/
theorem c7_skip_mods_refinement (env : Option (List (List Nat)))
    (fs : List (List Nat) → List DirEntry) (input : DokoArgs) :
    (∃ e, doko env fs input = .error e ∧ doko_skip_mods env fs input = .error e) ∨
    (∃ decls reg,
      doko env fs input = .ok (decls ++ [reg]) ∧
      doko_skip_mods env fs input = .ok [reg] ∧
      (∃ fnName sg arms, reg = Item.registry fnName sg arms) ∧
      ∀ d ∈ decls,
        (∃ nm body, d = Item.modWrap nm body) ∨ (∃ po nm, d = Item.modInclude po nm)) := by
  unfold doko doko_skip_mods tokens_for_input
  cases henc : get_enclosing_modules input.path with
  | error e => exact Or.inl ⟨e, rfl, rfl⟩
  | ok enclosing =>
    cases hsub : get_submodule_data env fs input.path with
    | error e => exact Or.inl ⟨e, rfl, rfl⟩
    | ok submods =>
      refine Or.inr ⟨build_module_includes submods enclosing,
        build_registry submods enclosing input.method input.signature,
        rfl, rfl, ⟨_, _, _, rfl⟩, ?_⟩
      apply build_module_includes_shapes
      intro d hd
      unfold get_submodule_data at hsub
      cases hnames : source_file_names (fs (resolveDir env input.path)) with
      | error e => rw [hnames] at hsub; exact absurd hsub (by simp)
      | ok names =>
        rw [hnames] at hsub
        have hsm : submods = names.map data_for_submodule := by
          cases hsub; rfl
        rw [hsm] at hd
        obtain ⟨s, _, hds⟩ := List.mem_map.mp hd
        rw [← hds]
        exact data_for_submodule_includeDecl s

/-- C7 witness: the refinement instantiated for a directory holding just
`a.rs` under the argument `src`. -/
theorem c7_skip_mods_refinement_witness :
    (∃ e, doko none (fun _ => [⟨true, [97, 46, 114, 115]⟩])
          ⟨[[115, 114, 99]], [114, 117, 110], ⟨[], [117, 51, 50]⟩⟩ = .error e ∧
        doko_skip_mods none (fun _ => [⟨true, [97, 46, 114, 115]⟩])
          ⟨[[115, 114, 99]], [114, 117, 110], ⟨[], [117, 51, 50]⟩⟩ = .error e) ∨
    (∃ decls reg,
      doko none (fun _ => [⟨true, [97, 46, 114, 115]⟩])
          ⟨[[115, 114, 99]], [114, 117, 110], ⟨[], [117, 51, 50]⟩⟩ = .ok (decls ++ [reg]) ∧
      doko_skip_mods none (fun _ => [⟨true, [97, 46, 114, 115]⟩])
          ⟨[[115, 114, 99]], [114, 117, 110], ⟨[], [117, 51, 50]⟩⟩ = .ok [reg] ∧
      (∃ fnName sg arms, reg = Item.registry fnName sg arms) ∧
      ∀ d ∈ decls,
        (∃ nm body, d = Item.modWrap nm body) ∨ (∃ po nm, d = Item.modInclude po nm)) :=
  c7_skip_mods_refinement none (fun _ => [⟨true, [97, 46, 114, 115]⟩])
    ⟨[[115, 114, 99]], [114, 117, 110], ⟨[], [117, 51, 50]⟩⟩

/-- C5: generation output is deterministic: for a fixed directory content
(up to iteration order) and fixed parameters, the emitted items are
identical — the output depends only on the multiset of directory entries
(hence, after sorting, only on the sorted eligible stems), not on the
order in which the filesystem yields them. -/
theorem c5_deterministic_output (env : Option (List (List Nat)))
    (fs fs2 : List (List Nat) → List DirEntry) (input : DokoArgs)
    (include_mods : Bool)
    (h : List.Perm (fs (resolveDir env input.path)) (fs2 (resolveDir env input.path))) :
    tokens_for_input env fs input include_mods
      = tokens_for_input env fs2 input include_mods := by
  have hs : get_submodule_data env fs input.path = get_submodule_data env fs2 input.path := by
    unfold get_submodule_data
    rw [source_file_names_perm h]
  unfold tokens_for_input
  rw [hs]

/-- C5 witness: the two iteration orders of a directory holding `a.rs` and
`b.rs` generate identical output. -/
theorem c5_deterministic_output_witness :
    tokens_for_input none
        (fun _ => [⟨true, [98, 46, 114, 115]⟩, ⟨true, [97, 46, 114, 115]⟩])
        ⟨[[115, 114, 99]], [114, 117, 110], ⟨[], [117, 51, 50]⟩⟩ true
      = tokens_for_input none
        (fun _ => [⟨true, [97, 46, 114, 115]⟩, ⟨true, [98, 46, 114, 115]⟩])
        ⟨[[115, 114, 99]], [114, 117, 110], ⟨[], [117, 51, 50]⟩⟩ true :=
  c5_deterministic_output none _ _ _ true (by decide)

/-- C10: the optional project-root override (`CARGO_MANIFEST_DIR`) affects
only which filesystem directory is read: whenever the resolved reads agree,
the whole output — enclosing-scope chain, scope declarations and dispatcher
references, all computed from the directory argument as written — is
identical with and without the override. -/
theorem c10_env_only_selects_directory (env1 env2 : Option (List (List Nat)))
    (fs1 fs2 : List (List Nat) → List DirEntry) (input : DokoArgs)
    (include_mods : Bool)
    (h : fs1 (resolveDir env1 input.path) = fs2 (resolveDir env2 input.path)) :
    tokens_for_input env1 fs1 input include_mods
      = tokens_for_input env2 fs2 input include_mods := by
  have hs : get_submodule_data env1 fs1 input.path = get_submodule_data env2 fs2 input.path := by
    unfold get_submodule_data
    rw [h]
  unfold tokens_for_input
  rw [hs]

/-- C10 witness: with a constant filesystem, generation under a manifest
override equals generation without one. -/
theorem c10_env_only_selects_directory_witness :
    tokens_for_input (some [[104, 111, 109, 101]])
        (fun _ => [⟨true, [97, 46, 114, 115]⟩])
        ⟨[[115, 114, 99]], [114, 117, 110], ⟨[], [117, 51, 50]⟩⟩ true
      = tokens_for_input none (fun _ => [⟨true, [97, 46, 114, 115]⟩])
        ⟨[[115, 114, 99]], [114, 117, 110], ⟨[], [117, 51, 50]⟩⟩ true :=
  c10_env_only_selects_directory (some [[104, 111, 109, 101]]) none _ _ _ true rfl

/-- C4: for a directory argument `root/a/b` containing the single file
`c.rs` (hyphen-free, decodable, not reserved), the emitted inclusion
output nests `pub mod a { pub mod b { pub mod c; } }` outermost-first, and
the dispatcher's single branch keys on `c` and references
`crate::a::b::c::<method>` — the enclosing chain applied
outermost-to-innermost, consistent with the declaration nesting. -/
theorem c4_nested_scopes (env : Option (List (List Nat)))
    (fs : List (List Nat) → List DirEntry) (root a b c method : List Nat)
    (sig : Signature)
    (hfs : fs (resolveDir env [root, a, b]) = [⟨true, c ++ [46, 114, 115]⟩])
    (hva : validUtf8 a = true) (hvb : validUtf8 b = true)
    (hvc : validUtf8 (c ++ [46, 114, 115]) = true)
    (hres : isReserved (c ++ [46, 114, 115]) = false)
    (hcne : c ≠ []) (hnh : 45 ∉ c) :
    tokens_for_input env fs ⟨[root, a, b], method, sig⟩ true
      = .ok [Item.modWrap a [Item.modWrap b [Item.modInclude none c]],
             Item.registry (dokoMark ++ method) sig
               [MatchArm.call c [crateSeg, a, b, c, method], MatchArm.catchAllPanic]] := by
  have henc : get_enclosing_modules [root, a, b] = .ok [a, b] := by
    simp [get_enclosing_modules, identsOf, hva, hvb]
  have hx : extensionIsRs (c ++ [46, 114, 115]) = true := extensionIsRs_append hcne
  have hsn : scanNames [⟨true, c ++ [46, 114, 115]⟩] = [c] := by
    simp [scanNames, hres, hx, hvc, stemOf_append]
  have hsf : scanFailures [⟨true, c ++ [46, 114, 115]⟩] = [] := by
    simp [scanFailures, hres, hx, hvc]
  have hcnil : ¬([c] = ([] : List (List Nat))) := by simp
  have hsfn : source_file_names [⟨true, c ++ [46, 114, 115]⟩] = .ok [c] := by
    simp only [source_file_names, hsn, hsf, if_neg hcnil]
    rfl
  have hsub : get_submodule_data env fs [root, a, b] = .ok [data_for_submodule c] := by
    unfold get_submodule_data
    rw [hfs, hsfn]
    rfl
  have hd : data_for_submodule c
      = ⟨c, c, Item.modInclude none c⟩ := by
    simp [data_for_submodule, hnh]
  simp only [tokens_for_input, henc, hsub, hd]
  simp [build_module_includes, build_registry, get_call_for_submodule, foldl_snoc]

/-- C4 witness: for directory `root/a/b` containing exactly `c.rs`, with
method `run` and signature `() -> u32`, the generated output is the nested
`a`/`b` scopes around the inclusion of `c` plus the dispatcher whose `c`
branch references `crate::a::b::c::run`. -/
theorem c4_nested_scopes_witness :
    tokens_for_input none (fun _ => [⟨true, [99] ++ [46, 114, 115]⟩])
        ⟨[[114, 111, 111, 116], [97], [98]], [114, 117, 110], ⟨[], [117, 51, 50]⟩⟩ true
      = .ok [Item.modWrap [97] [Item.modWrap [98] [Item.modInclude none [99]]],
             Item.registry (dokoMark ++ [114, 117, 110]) ⟨[], [117, 51, 50]⟩
               [MatchArm.call [99] [crateSeg, [97], [98], [99], [114, 117, 110]],
                MatchArm.catchAllPanic]] :=
  c4_nested_scopes none _ [114, 111, 111, 116] [97] [98] [99] [114, 117, 110]
    ⟨[], [117, 51, 50]⟩ rfl (by decide) (by decide) (by decide) (by decide)
    (by decide) (by decide)

end Doko
